import Mathlib

set_option autoImplicit false

/-!
Shallow embedding of the TypeScript CSV-ingestion pipeline
(retry executor, in-memory idempotent user repository, policy evaluator,
CLI exit classification, and report domain distribution), together with
proofs about the claimed properties.

Conventions of the embedding:
- JS `Map` objects become association lists with first-match lookup and
  in-place replacement on update (`mapGet` / `mapSet`), which reproduces
  the `Map` iteration order (insertion order, updates keep position).
- JS `Set` objects become duplicate-free lists in insertion order (`setAdd`).
- `Date` values are their epoch-millisecond `getTime()` integers.
- `Math.random()` draws and timestamps are passed explicitly as arguments.
- Promise/ResultAsync plumbing is erased; fallible operations return
  `Except AppError`; the store's in-place mutation becomes explicit state
  passing (a failing step still returns the state it left behind, matching
  the mutated-in-place JS store).
- `string.toLowerCase()` / `split("@")` are modelled character-wise
  (`toLowerStr` / `splitEmail`); this matches the JS behaviour on the
  ASCII strings the pipeline handles.
- The `details` payload of `AppError` (used only for report text) is elided;
  `type`, `code`, `message` and the wrapped cause message are kept.
-/

namespace TsPipeline

/-- ASCII lower-casing of one character, as JS `toLowerCase` acts on ASCII. -/
def charToLower (c : Char) : Char :=
  if 65 ≤ c.toNat ∧ c.toNat ≤ 90 then Char.ofNat (c.toNat + 32) else c

/-- Model of JS `string.toLowerCase()` (ASCII range). -/
def toLowerStr (s : String) : String :=
  String.mk (s.data.map charToLower)

/-- Split a character list at every occurrence of `sep`, as JS `split`. -/
def splitChars (sep : Char) : List Char → List (List Char)
  | [] => [[]]
  | c :: rest =>
    if c = sep then [] :: splitChars sep rest
    else
      match splitChars sep rest with
      | [] => [[c]]
      | chunk :: chunks => (c :: chunk) :: chunks

/-- Model of JS `email.split("@")`. -/
def splitEmail (email : String) : List String :=
  (splitChars '@' email.data).map (fun cs => String.mk cs)

/-- Model of `app/errors.ts` `AppError` (the reporting-only `details` payload
is elided; the `cause` of `wrapUnknown` is kept as the wrapped message). -/
structure AppError where
  type : String
  code : String
  message : String
  cause : Option String
deriving Repr, DecidableEq

/-- Model of `createPolicyError` from `app/errors.ts`. -/
def createPolicyError (code message : String) : AppError :=
  { type := "PolicyError", code := code, message := message, cause := none }

/-- Model of `createRepoError` from `app/errors.ts`. -/
def createRepoError (code message : String) : AppError :=
  { type := "RepoError", code := code, message := message, cause := none }

/-- Model of `wrapUnknown` from `app/errors.ts` applied to a JS `Error`
carrying the given message. -/
def wrapUnknown (causeMessage : String) : AppError :=
  { type := "UnknownError", code := "UNKNOWN",
    message := "An unexpected error occurred", cause := some causeMessage }

/-- Model of `RetryOptions` from `infra/retry.ts`; delays are exact rationals
standing for the JS numbers. -/
structure RetryOptions where
  maxAttempts : Int
  baseDelayMs : ℚ
  maxDelayMs : ℚ
  factor : ℚ

/-- Model of `computeDelay` from `infra/retry.ts`:
`Math.random() * Math.min(maxDelayMs, baseDelayMs * factor ^ Math.max(0, attempt - 1))`,
with the `Math.random()` draw `rand` passed explicitly. -/
def computeDelay (attempt : Int) (options : RetryOptions) (rand : ℚ) : ℚ :=
  let exponential := options.baseDelayMs * options.factor ^ (max 0 (attempt - 1)).toNat
  let capped := min options.maxDelayMs exponential
  rand * capped

/-- Model of the mutually recursive `execute` / `fail` pair inside
`createRetryExecutor` (`infra/retry.ts`).  The second component of the
result records the attempt numbers at which `operation` was invoked, in
order (the sleep between attempts never fails and is erased). -/
def retryGo {α : Type} (maxAttempts : Int) (operation : Nat → Except AppError α)
    (attempt : Nat) (lastError : Option AppError) : Except AppError α × List Nat :=
  if _h1 : maxAttempts < (attempt : Int) then
    (Except.error (lastError.getD (wrapUnknown "Retry exceeded attempts")), [])
  else
    match operation attempt with
    | Except.ok value => (Except.ok value, [attempt])
    | Except.error e =>
      if h2 : maxAttempts ≤ (attempt : Int) then
        (Except.error e, [attempt])
      else
        let rest := retryGo maxAttempts operation (attempt + 1) (some e)
        (rest.1, attempt :: rest.2)
termination_by (maxAttempts + 1 - (attempt : Int)).toNat
decreasing_by
  simp_wf
  omega

/-- Model of the executor returned by `createRetryExecutor`: `execute(1, null)`. -/
def retryExecute {α : Type} (maxAttempts : Int) (operation : Nat → Except AppError α) :
    Except AppError α × List Nat :=
  retryGo maxAttempts operation 1 none

/-- Model of `User` from `domain/models.ts` (`updatedAt` is `getTime()`). -/
structure User where
  id : String
  name : String
  email : String
  age : Int
  updatedAt : Int
deriving Repr, DecidableEq

/-- Model of `IdempotencyEntry` from `infra/memory.ts` (`userIds` is the
member set in insertion order). -/
structure IdempotencyEntry where
  expiresAt : Int
  userIds : List String
deriving Repr, DecidableEq

/-- The three `Map` fields of `MemoryUserRepository`. -/
structure RepoState where
  byId : List (String × User)
  byEmail : List (String × String)
  idempotency : List (String × IdempotencyEntry)
deriving Repr, DecidableEq

/-- Model of JS `Map.get`: first (only) binding of the key. -/
def mapGet {α : Type} : List (String × α) → String → Option α
  | [], _ => none
  | p :: rest, k => if p.1 = k then some p.2 else mapGet rest k

/-- Model of JS `Map.set`: replace in place, or append a new binding. -/
def mapSet {α : Type} : List (String × α) → String → α → List (String × α)
  | [], k, v => [(k, v)]
  | p :: rest, k, v => if p.1 = k then (k, v) :: rest else p :: mapSet rest k v

/-- Model of JS `Set.add` on the insertion-ordered member list. -/
def setAdd (s : List String) (x : String) : List String :=
  if x ∈ s then s else s ++ [x]

/-- Model of `cloneUser` from `infra/memory.ts`: a defensive copy, which is
the identity under value semantics. -/
def cloneUser (user : User) : User := user

/-- A repository with no stored users and no idempotency entries. -/
def emptyRepo : RepoState :=
  { byId := [], byEmail := [], idempotency := [] }

/-- Model of `MemoryUserRepository.findById`. -/
def findById (st : RepoState) (id : String) : Option User :=
  (mapGet st.byId id).map cloneUser

/-- Model of `MemoryUserRepository.findByEmail` (the truthiness test `id ?`
in the source makes an empty-string id behave like a missing one). -/
def findByEmail (st : RepoState) (email : String) : Option User :=
  let key := toLowerStr email
  match mapGet st.byEmail key with
  | some id => if id = "" then none else (mapGet st.byId id).map cloneUser
  | none => none

/-- Model of the `replayEligible` test in `MemoryUserRepository.upsert`:
`entry?.expiresAt ? entry.expiresAt > now && entry.userIds.has(user.id) : false`
(the JS truthiness of `expiresAt` makes a zero expiry ineligible). -/
def replayEligible (entry : Option IdempotencyEntry) (now : Int) (userId : String) : Bool :=
  match entry with
  | some e => decide (e.expiresAt ≠ 0) && decide (now < e.expiresAt) && e.userIds.contains userId
  | none => false

/-- Model of `MemoryUserRepository.persistIdempotency` (`infra/memory.ts`
lines 146-151): an existing live entry only gains the member id (its
`expiresAt` is left as it was); otherwise a fresh entry replaces whatever
was there. -/
def persistIdempotency (ttl : Int) (st : RepoState) (key userId : String) (now : Int) :
    RepoState :=
  let existing := mapGet st.idempotency key
  let expiresAt := now + ttl
  match existing with
  | some entry =>
    if entry.expiresAt ≠ 0 ∧ now < entry.expiresAt then
      { st with idempotency :=
          mapSet st.idempotency key { entry with userIds := setAdd entry.userIds userId } }
    else
      { st with idempotency :=
          mapSet st.idempotency key { expiresAt := expiresAt, userIds := [userId] } }
  | none =>
    { st with idempotency :=
        mapSet st.idempotency key { expiresAt := expiresAt, userIds := [userId] } }

/-- Model of `MemoryUserRepository.upsert` (`infra/memory.ts` lines 50-88)
with `now = Date.now()` passed explicitly.  Returns the user handed back to
the caller and the repository state after the call (the state is unchanged
on the idempotent-replay path).  The JS truthiness of `idempotencyKey`
makes an empty-string key behave like an absent one. -/
def upsert (ttl : Int) (st : RepoState) (now : Int) (user : User)
    (idempotencyKey : Option String) : User × RepoState :=
  let keyOpt := idempotencyKey.bind (fun k => if k = "" then none else some k)
  let entry := keyOpt.bind (mapGet st.idempotency)
  let cached := if replayEligible entry now user.id then mapGet st.byId user.id else none
  match cached with
  | some c => (cloneUser c, st)
  | none =>
    let stored : User := { user with email := toLowerStr user.email }
    let afterWrite : RepoState :=
      { st with
        byId := mapSet st.byId stored.id stored
        byEmail := mapSet st.byEmail stored.email stored.id }
    let final : RepoState :=
      match keyOpt with
      | some k => persistIdempotency ttl afterWrite k stored.id now
      | none => afterWrite
    (cloneUser stored, final)

/-- Decidable equality for `Except`, used to evaluate concrete runs of the
bulk-persistence model. -/
instance exceptDecEq {ε α : Type} [DecidableEq ε] [DecidableEq α] : DecidableEq (Except ε α)
  | Except.ok x, Except.ok y =>
    if h : x = y then Decidable.isTrue (congrArg Except.ok h)
    else Decidable.isFalse (fun hh => h (Except.ok.inj hh))
  | Except.ok _, Except.error _ => Decidable.isFalse (fun hh => Except.noConfusion hh)
  | Except.error _, Except.ok _ => Decidable.isFalse (fun hh => Except.noConfusion hh)
  | Except.error x, Except.error y =>
    if h : x = y then Decidable.isTrue (congrArg Except.error h)
    else Decidable.isFalse (fun hh => h (Except.error.inj hh))

/-- Model of `BulkUpsertResult` from `infra/repo.ts`. -/
structure BulkUpsertResult where
  successes : List User
  failures : List (User × AppError)
deriving Repr, DecidableEq

/-- Model of the inner `sequential` recursion of
`MemoryUserRepository.bulkUpsert` in `failFast` mode.  `step` stands for the
injected retried upsert `options.retry(() => this.upsert(user, options))`;
it returns the repository state it leaves behind even on failure, matching
the in-place mutation of the JS store. -/
def bulkSequential {σ : Type} (step : User → σ → Except AppError User × σ) :
    List User → σ → List User → Except AppError (List User) × σ
  | [], s, acc => (Except.ok acc, s)
  | u :: rest, s, acc =>
    match step u s with
    | (Except.ok stored, s1) => bulkSequential step rest s1 (acc ++ [stored])
    | (Except.error e, s1) => (Except.error e, s1)

/-- Model of `MemoryUserRepository.bulkUpsert` with `failFast = true`: the
sequential run, wrapped into a `BulkUpsertResult` with no failures on
success and surfaced as the overall error on the first failure. -/
def bulkUpsertFailFast {σ : Type} (step : User → σ → Except AppError User × σ)
    (users : List User) (s : σ) : Except AppError BulkUpsertResult × σ :=
  match bulkSequential step users s [] with
  | (Except.ok successes, s1) => (Except.ok { successes := successes, failures := [] }, s1)
  | (Except.error e, s1) => (Except.error e, s1)

/-- Model of `DEFAULT_DISPOSABLE_DOMAINS` from `domain/policies.ts`. -/
def DEFAULT_DISPOSABLE_DOMAINS : List String :=
  ["mailinator.com", "trashmail.com", "10minutemail.com", "tempmail.com"]

/-- Model of `isDisposable` from `domain/policies.ts`, built-in deny-list. -/
def isDisposable (domain : String) : Bool :=
  DEFAULT_DISPOSABLE_DOMAINS.contains (toLowerStr domain)

/-- Model of `user.email.split("@")[1] ?? ""` from `domain/policies.ts`. -/
def emailDomain (email : String) : String :=
  (splitEmail email).getD 1 ""

/-- Model of `PolicyOutcome` from `domain/policies.ts`. -/
inductive PolicyOutcome where
  | accept (user : User)
  | skip (user : User) (error : AppError)
deriving Repr, DecidableEq

/-- Model of `evaluatePolicies` from `domain/policies.ts` (lines 45-102),
with the default disposable-domain predicate and the repository reads
resolved against a `RepoState`: disposable-domain check first, then the
id-based staleness check (`matched.updatedAt >= user.updatedAt` skips),
then the email/name duplicate check. -/
def evaluatePolicies (st : RepoState) (user : User) : PolicyOutcome :=
  let domain := emailDomain user.email
  if isDisposable domain then
    PolicyOutcome.skip user
      (createPolicyError "POLICY_DISPOSABLE_EMAIL" "Disposable email domain is not allowed")
  else
    match findById st user.id with
    | some matched =>
      if user.updatedAt ≤ matched.updatedAt then
        PolicyOutcome.skip user
          (createPolicyError "POLICY_STALE_UPDATE" "Incoming record is older than the stored version")
      else
        PolicyOutcome.accept user
    | none =>
      match findByEmail st user.email with
      | some matched =>
        if toLowerStr matched.name = toLowerStr user.name then
          PolicyOutcome.skip matched
            (createPolicyError "POLICY_DUPLICATE" "Duplicate user detected by email and name")
        else
          PolicyOutcome.accept user
      | none => PolicyOutcome.accept user

/-- Model of `exitKinds` from `index.ts`. -/
def exitKinds : List String := ["success", "partial"]

/-- Model of `classifyExit` from `index.ts`:
`exitKinds[Math.min(1, Math.max(0, Number(errorsCount > 0)))]`. -/
def classifyExit (errorsCount : Nat) : String :=
  exitKinds.getD (min 1 (max 0 (if 0 < errorsCount then 1 else 0))) "success"

/-- Exit code chosen by the `exitHandlers` record in `index.ts`:
the `success` handler resolves to `0`, the `partial` handler to `2`
(those are the only two keys of the record). -/
def exitCodeOfKind (kind : String) : Nat :=
  if kind = "partial" then 2 else 0

/-- The two observations of a completed pipeline run that `executePipeline`
inspects: `output.errors.length` and `output.skipped.length`. -/
structure PipelineSuccessSummary where
  errorsCount : Nat
  skippedCount : Nat
deriving Repr, DecidableEq

/-- Model of the exit-code selection of `executePipeline` / `main` in
`index.ts`: a completed run is classified by `classifyExit(errors.length)`
and dispatched through `exitHandlers`; a fatally failed run resolves `1`. -/
def executePipelineExitCode (outcome : Except AppError PipelineSuccessSummary) : Nat :=
  match outcome with
  | Except.ok output => exitCodeOfKind (classifyExit output.errorsCount)
  | Except.error _ => 1

/-- Model of the destructuring `const [, domain = "unknown"] = user.email.split("@")`
in `app/report.ts`. -/
def reportDomain (email : String) : String :=
  (splitEmail email).getD 1 "unknown"

/-- Model of the domain-frequency `reduce` in `topDomains` (`app/report.ts`):
a `Map` from domain to count, built over the persisted users in order, kept
as an association list in first-seen key order. -/
def domainCounts (users : List User) : List (String × Nat) :=
  users.foldl
    (fun acc user =>
      let domain := reportDomain user.email
      mapSet acc domain ((mapGet acc domain).getD 0 + 1))
    []

/-- Stable insertion of one entry into a list sorted by descending count:
the entry goes after every element with a greater-or-equal count. -/
def insertDesc (x : String × Nat) : List (String × Nat) → List (String × Nat)
  | [] => [x]
  | y :: ys => if y.2 < x.2 then x :: y :: ys else y :: insertDesc x ys

/-- Model of the stable JS `Array.sort((a, b) => b[1] - a[1])` in
`topDomains`: a stable insertion sort by descending count. -/
def sortByCountDesc (l : List (String × Nat)) : List (String × Nat) :=
  l.foldl (fun acc x => insertDesc x acc) []

/-- Model of `topDomains` from `app/report.ts` at the default `limit = 5`
(the only call site, `buildReport`, uses the default). -/
def topDomains (users : List User) : List (String × Nat) :=
  (sortByCountDesc (domainCounts users)).take 5

/-- Spec-side description of "the order in which each domain first appears":
the duplicate-free subsequence of first occurrences.  Used only to state
the tie-break ordering claim about `domainCounts`. -/
def firstSeenDedup : List String → List String
  | [] => []
  | d :: rest => d :: (firstSeenDedup rest).filter (fun x => x ≠ d)

/-! Concrete fixtures used by witnesses and counterexamples. -/

/-- Fixture: a user on domain `x.com`. -/
def userAx : User :=
  { id := "a", name := "Alice", email := "a@x.com", age := 30, updatedAt := 10 }

/-- Fixture: a second user on domain `x.com`. -/
def userBx : User :=
  { id := "b", name := "Bob", email := "b@x.com", age := 40, updatedAt := 10 }

/-- Fixture: a user on domain `y.com`. -/
def userCy : User :=
  { id := "c", name := "Cara", email := "c@y.com", age := 50, updatedAt := 10 }

/-- Fixture: the batch with emails `a@x.com`, `b@x.com`, `c@y.com`. -/
def usersXY : List User := [userAx, userBx, userCy]

/-- Fixture: a user whose persistence step is made to fail. -/
def userBad : User :=
  { id := "bad", name := "Mallory", email := "m@z.com", age := 20, updatedAt := 10 }

/-- Fixture: an update of `userAx` with a strictly newer `updatedAt`. -/
def userAxNewer : User :=
  { id := "a", name := "Alice", email := "a@x.com", age := 31, updatedAt := 20 }

/-- Fixture: a user on a disposable domain sharing the id `"a"`, older than
the stored record. -/
def userDisp : User :=
  { id := "a", name := "Dora", email := "d@mailinator.com", age := 20, updatedAt := 5 }

/-- Fixture: a store whose `byId`/`byEmail` maps hold `userAx`. -/
def storeWithA : RepoState :=
  { byId := [("a", userAx)], byEmail := [("a@x.com", "a")], idempotency := [] }

/-- Fixture: an operation failing on every attempt with the attempt number
in the message. -/
def opAlwaysFail : Nat → Except AppError Unit :=
  fun n => Except.error (createRepoError "REPO_WRITE_FAILED" (toString n))

/-- Fixture: the error produced by the failing step below. -/
def errBoom : AppError := createRepoError "REPO_WRITE_FAILED" "boom"

/-- Fixture: a per-entity persistence step failing exactly on `userBad` and
otherwise performing a plain `upsert`. -/
def stepFixture : User → RepoState → Except AppError User × RepoState :=
  fun u st =>
    if u.id = "bad" then (Except.error errBoom, st)
    else
      let r := upsert 100 st 0 u none
      (Except.ok r.1, r.2)

/-- Fixture: the store after persisting `userAx` through `stepFixture`. -/
def stateAfterA : RepoState :=
  { byId := [("a", userAx)], byEmail := [("a@x.com", "a")], idempotency := [] }

/-- Fixture: store state after upserting `userAx` under key `"k"` at time 0
with TTL 100. -/
def s1Fix : RepoState := (upsert 100 emptyRepo 0 userAx (some "k")).2

/-- Fixture: store state after then upserting `userBx` under the same key at
time 50 (a non-replay write against the live entry). -/
def s2Fix : RepoState := (upsert 100 s1Fix 50 userBx (some "k")).2

/-- Fixture: a completed run with no aggregated errors and three policy skips. -/
def summarySkips : PipelineSuccessSummary := { errorsCount := 0, skippedCount := 3 }

/-- Fixture: a retry configuration with unit delays. -/
def optsFix : RetryOptions :=
  { maxAttempts := 3, baseDelayMs := 1, maxDelayMs := 1, factor := 1 }

/-! Basic lemmas about the JS `Map` model. -/

theorem mapGet_mapSet_self {α : Type} (m : List (String × α)) (k : String) (v : α) :
    mapGet (mapSet m k v) k = some v := by
  induction m with
  | nil => simp [mapGet, mapSet]
  | cons p rest ih =>
    by_cases h : p.1 = k
    · simp [mapSet, h, mapGet]
    · simp [mapSet, h, mapGet, ih]

/-! Lemmas about the retry executor. -/

/-- Running the retry loop from attempt `attempt` against an operation that
fails on every attempt performs the attempts `attempt, …, maxAttempts` in
order and ends with the final attempt's own error. -/
theorem retryGo_allFail {α : Type} (maxAttempts : Int) (op : Nat → Except AppError α)
    (hfail : ∀ n, ∃ e, op n = Except.error e) :
    ∀ (k attempt : Nat) (lastError : Option AppError), 1 ≤ attempt →
      (attempt : Int) + k = maxAttempts →
      retryGo maxAttempts op attempt lastError
        = (op maxAttempts.toNat, List.range' attempt (k + 1)) := by
  intro k
  induction k with
  | zero =>
    intro attempt lastError hone hsum
    obtain ⟨e, he⟩ := hfail attempt
    have hm : maxAttempts.toNat = attempt := by omega
    rw [retryGo, dif_neg (by omega : ¬ maxAttempts < (attempt : Int))]
    simp only [he]
    rw [dif_pos (by omega : maxAttempts ≤ (attempt : Int)), hm, he]
    simp [List.range']
  | succ k ih =>
    intro attempt lastError hone hsum
    obtain ⟨e, he⟩ := hfail attempt
    rw [retryGo, dif_neg (by omega : ¬ maxAttempts < (attempt : Int))]
    simp only [he]
    rw [dif_neg (by omega : ¬ maxAttempts ≤ (attempt : Int))]
    have hrec := ih (attempt + 1) (some e) (by omega) (by push_cast; omega)
    simp only [hrec]
    simp [List.range']

/-- C2: for `maxAttempts ≥ 1` and an operation failing on every attempt,
`execute` invokes the operation at exactly the attempts `1, …, maxAttempts`
(so exactly `maxAttempts` invocations) and returns the error produced by
the final attempt itself, never a synthetic exhaustion error. -/
theorem retryExecute_always_fail {α : Type} (maxAttempts : Int)
    (op : Nat → Except AppError α) (hmax : 1 ≤ maxAttempts)
    (hfail : ∀ n, ∃ e, op n = Except.error e) :
    ∃ e, op maxAttempts.toNat = Except.error e ∧
      retryExecute maxAttempts op = (Except.error e, List.range' 1 maxAttempts.toNat) ∧
      (List.range' 1 maxAttempts.toNat).length = maxAttempts.toNat := by
  obtain ⟨e, he⟩ := hfail maxAttempts.toNat
  refine ⟨e, he, ?_, by simp⟩
  have h := retryGo_allFail maxAttempts op hfail (maxAttempts - 1).toNat 1 none
    (le_refl 1) (by omega)
  have hn : (maxAttempts - 1).toNat + 1 = maxAttempts.toNat := by omega
  rw [retryExecute, h, he, hn]

/-- Witness for C2: `maxAttempts = 2` against an always-failing operation. -/
theorem retryExecute_always_fail_witness :
    ∃ e, opAlwaysFail (Int.toNat 2) = Except.error e ∧
      retryExecute 2 opAlwaysFail = (Except.error e, List.range' 1 (Int.toNat 2)) ∧
      (List.range' 1 (Int.toNat 2)).length = Int.toNat 2 :=
  retryExecute_always_fail 2 opAlwaysFail (by decide) (fun n => ⟨_, rfl⟩)

/-- C10: configured with `maxAttempts ≤ 0`, `execute` invokes the operation
zero times (empty attempt trace) and returns the synthetic `UnknownError`
wrapping the message `Retry exceeded attempts`. -/
theorem retryExecute_nonpositive_maxAttempts {α : Type} (maxAttempts : Int)
    (op : Nat → Except AppError α) (hmax : maxAttempts ≤ 0) :
    retryExecute maxAttempts op
      = (Except.error (wrapUnknown "Retry exceeded attempts"), []) := by
  rw [retryExecute, retryGo, dif_pos (by omega : maxAttempts < ((1 : Nat) : Int))]
  rfl

/-- Witness for C10 at `maxAttempts = 0`. -/
theorem retryExecute_nonpositive_maxAttempts_witness :
    retryExecute 0 opAlwaysFail
      = (Except.error (wrapUnknown "Retry exceeded attempts"), []) :=
  retryExecute_nonpositive_maxAttempts 0 opAlwaysFail (by decide)

/-- C7: for attempt `n ≥ 1` and a draw `rand ∈ [0, 1)` (with the configured
delays nonnegative and the factor nonnegative), the backoff delay equals
`rand * min maxDelayMs (baseDelayMs * factor ^ (n - 1))` — a uniform draw
from zero up to the exponentially growing cap — hence lies between `0` and
that cap. -/
theorem computeDelay_full_jitter (options : RetryOptions) (rand : ℚ) (n : Int)
    (hn : 1 ≤ n) (hr0 : 0 ≤ rand) (hr1 : rand < 1)
    (hbase : 0 ≤ options.baseDelayMs) (hmaxd : 0 ≤ options.maxDelayMs)
    (hfac : 0 ≤ options.factor) :
    computeDelay n options rand
      = rand * min options.maxDelayMs (options.baseDelayMs * options.factor ^ (n - 1).toNat)
    ∧ 0 ≤ computeDelay n options rand
    ∧ computeDelay n options rand
      ≤ min options.maxDelayMs (options.baseDelayMs * options.factor ^ (n - 1).toNat) := by
  have hmax : max 0 (n - 1) = n - 1 := by omega
  have hcap : 0 ≤ min options.maxDelayMs (options.baseDelayMs * options.factor ^ (n - 1).toNat) :=
    le_min hmaxd (mul_nonneg hbase (pow_nonneg hfac _))
  refine ⟨?_, ?_, ?_⟩
  · simp only [computeDelay, hmax]
  · simp only [computeDelay, hmax]
    exact mul_nonneg hr0 hcap
  · simp only [computeDelay, hmax]
    exact mul_le_of_le_one_left hcap hr1.le

/-- Witness for C7 at attempt 3 with unit configuration and draw 0. -/
theorem computeDelay_full_jitter_witness :
    computeDelay 3 optsFix 0
      = 0 * min optsFix.maxDelayMs (optsFix.baseDelayMs * optsFix.factor ^ ((3 : Int) - 1).toNat)
    ∧ 0 ≤ computeDelay 3 optsFix 0
    ∧ computeDelay 3 optsFix 0
      ≤ min optsFix.maxDelayMs (optsFix.baseDelayMs * optsFix.factor ^ ((3 : Int) - 1).toNat) :=
  computeDelay_full_jitter optsFix 0 3 (by decide) (le_refl 0) zero_lt_one
    zero_le_one zero_le_one zero_le_one

/-! Lemmas about the in-memory repository. -/

/-- `persistIdempotency` never touches the `byId` map. -/
theorem persistIdempotency_byId (ttl : Int) (st : RepoState) (key userId : String)
    (now : Int) : (persistIdempotency ttl st key userId now).byId = st.byId := by
  simp only [persistIdempotency]
  cases mapGet st.idempotency key
  · rfl
  · dsimp only
    split <;> rfl

/-- `persistIdempotency` never touches the `byEmail` map. -/
theorem persistIdempotency_byEmail (ttl : Int) (st : RepoState) (key userId : String)
    (now : Int) : (persistIdempotency ttl st key userId now).byEmail = st.byEmail := by
  simp only [persistIdempotency]
  cases mapGet st.idempotency key
  · rfl
  · dsimp only
    split <;> rfl

/-- `persistIdempotency` with no existing entry creates a fresh entry with
`expiresAt = now + ttl` and the single member id. -/
theorem persistIdempotency_fresh (ttl : Int) (st : RepoState) (key userId : String)
    (now : Int) (h : mapGet st.idempotency key = none) :
    persistIdempotency ttl st key userId now
      = { st with idempotency :=
            mapSet st.idempotency key { expiresAt := now + ttl, userIds := [userId] } } := by
  simp only [persistIdempotency, h]

/-- `persistIdempotency` on a live (truthy, unexpired) entry only adds the
member id; the entry's `expiresAt` is left unchanged. -/
theorem persistIdempotency_live (ttl : Int) (st : RepoState) (key userId : String)
    (now : Int) (entry : IdempotencyEntry) (h : mapGet st.idempotency key = some entry)
    (hz : entry.expiresAt ≠ 0) (hlt : now < entry.expiresAt) :
    persistIdempotency ttl st key userId now
      = { st with idempotency :=
            mapSet st.idempotency key { entry with userIds := setAdd entry.userIds userId } } := by
  simp only [persistIdempotency, h]
  rw [if_pos (And.intro hz hlt)]

/-- `persistIdempotency` on an expired (or zero-expiry) entry replaces it
with a fresh entry holding only the new member id. -/
theorem persistIdempotency_expired (ttl : Int) (st : RepoState) (key userId : String)
    (now : Int) (entry : IdempotencyEntry) (h : mapGet st.idempotency key = some entry)
    (hh : ¬(entry.expiresAt ≠ 0 ∧ now < entry.expiresAt)) :
    persistIdempotency ttl st key userId now
      = { st with idempotency :=
            mapSet st.idempotency key { expiresAt := now + ttl, userIds := [userId] } } := by
  simp only [persistIdempotency, h]
  rw [if_neg hh]

/-- An `upsert` whose replay check comes back empty takes the write path:
it stores the email-lowered user under its id and email and then registers
the idempotency key. -/
theorem upsert_write (ttl now : Int) (st : RepoState) (user : User) (key : String)
    (hkey : key ≠ "")
    (hnr : (if replayEligible (mapGet st.idempotency key) now user.id
            then mapGet st.byId user.id else none) = none) :
    upsert ttl st now user (some key)
      = ({ user with email := toLowerStr user.email },
         persistIdempotency ttl
           { st with
             byId := mapSet st.byId user.id { user with email := toLowerStr user.email }
             byEmail := mapSet st.byEmail (toLowerStr user.email) user.id }
           key user.id now) := by
  have hk : Option.bind (some key) (fun k => if k = "" then none else some k) = some key := by
    simp [hkey]
  simp only [upsert, hk, Option.some_bind, hnr, cloneUser]

/-- An `upsert` whose replay check succeeds returns the cached stored user
and leaves the state untouched. -/
theorem upsert_replay (ttl now : Int) (st : RepoState) (user : User) (key : String)
    (hkey : key ≠ "") (c : User)
    (helig : replayEligible (mapGet st.idempotency key) now user.id = true)
    (hc : mapGet st.byId user.id = some c) :
    upsert ttl st now user (some key) = (c, st) := by
  have hk : Option.bind (some key) (fun k => if k = "" then none else some k) = some key := by
    simp [hkey]
  simp only [upsert, hk, Option.some_bind, helig, if_true, hc, cloneUser]

/-- C1: upserting the same entity twice under the same fresh idempotency key
within the TTL yields one stored record — the second call leaves the whole
store (id map, email map and idempotency map) unchanged, returns the same
user as the first call, and `findById` resolves to exactly that returned
user both before and after the second call. -/
theorem upsert_idempotent_replay (st : RepoState) (ttl now1 now2 : Int) (user : User)
    (key : String) (hkey : key ≠ "") (hfresh : mapGet st.idempotency key = none)
    (h0 : 0 ≤ now1) (h12 : now1 ≤ now2) (httl : now2 < now1 + ttl) :
    (upsert ttl (upsert ttl st now1 user (some key)).2 now2 user (some key)).2
      = (upsert ttl st now1 user (some key)).2
    ∧ (upsert ttl (upsert ttl st now1 user (some key)).2 now2 user (some key)).1
      = (upsert ttl st now1 user (some key)).1
    ∧ findById (upsert ttl st now1 user (some key)).2 user.id
      = some (upsert ttl (upsert ttl st now1 user (some key)).2 now2 user (some key)).1 := by
  have hnr1 : (if replayEligible (mapGet st.idempotency key) now1 user.id
               then mapGet st.byId user.id else none) = none := by
    simp [hfresh, replayEligible]
  have h1 := upsert_write ttl now1 st user key hkey hnr1
  have hidem1 : mapGet (upsert ttl st now1 user (some key)).2.idempotency key
      = some { expiresAt := now1 + ttl, userIds := [user.id] } := by
    rw [h1]
    rw [persistIdempotency_fresh _ _ _ _ _ (by simpa using hfresh)]
    exact mapGet_mapSet_self ..
  have hbyid1 : mapGet (upsert ttl st now1 user (some key)).2.byId user.id
      = some { user with email := toLowerStr user.email } := by
    rw [h1, persistIdempotency_byId]
    simpa using mapGet_mapSet_self st.byId user.id { user with email := toLowerStr user.email }
  have helig2 : replayEligible (mapGet (upsert ttl st now1 user (some key)).2.idempotency key)
      now2 user.id = true := by
    rw [hidem1]
    simp only [replayEligible, Bool.and_eq_true, decide_eq_true_eq]
    refine ⟨⟨by omega, by omega⟩, by simp⟩
  have h2 := upsert_replay ttl now2 (upsert ttl st now1 user (some key)).2 user key hkey
    { user with email := toLowerStr user.email } helig2 hbyid1
  refine ⟨by rw [h2], ?_, ?_⟩
  · rw [h2, h1]
  · rw [h2]
    simp only [findById, hbyid1, Option.map_some]
    rfl

/-- Witness for C1: replaying `userAx` under key `"k"` at times 0 and 5
with TTL 100 on the empty store. -/
theorem upsert_idempotent_replay_witness :
    (upsert 100 (upsert 100 emptyRepo 0 userAx (some "k")).2 5 userAx (some "k")).2
      = (upsert 100 emptyRepo 0 userAx (some "k")).2
    ∧ (upsert 100 (upsert 100 emptyRepo 0 userAx (some "k")).2 5 userAx (some "k")).1
      = (upsert 100 emptyRepo 0 userAx (some "k")).1
    ∧ findById (upsert 100 emptyRepo 0 userAx (some "k")).2 userAx.id
      = some (upsert 100 (upsert 100 emptyRepo 0 userAx (some "k")).2 5 userAx (some "k")).1 :=
  upsert_idempotent_replay emptyRepo 100 0 5 userAx "k" (by decide) (by decide)
    (by decide) (by decide) (by decide)

/-- C6 counterexample: after `userAx` is upserted under key `"k"` at time 0
with TTL 100, a second, non-replay upsert of `userBx` under the same key at
time 50 leaves the entry's `expiresAt` at 100 — it is NOT extended to
`now + ttl = 150` as the claim states; only the member id is added. -/
theorem upsert_no_expiry_extension_cex :
    mapGet s2Fix.idempotency "k" = some { expiresAt := 100, userIds := ["a", "b"] }
    ∧ (mapGet s2Fix.idempotency "k").map IdempotencyEntry.expiresAt ≠ some (50 + 100) := by
  decide

/-- C6 (amended): a non-replay upsert performed with an idempotency key
registers the entity's id under that key as follows: a live existing entry
gains the id in its member set with its `expiresAt` left unchanged (not
extended); an expired or zero-expiry entry is replaced by a fresh entry
`{expiresAt = now + ttl, members = [id]}` (so expired membership never
counts toward replay detection); a missing entry is created fresh the same
way. -/
theorem upsert_registers_idempotency (ttl now : Int) (st : RepoState) (user : User)
    (key : String) (hkey : key ≠ "")
    (hnr : (if replayEligible (mapGet st.idempotency key) now user.id
            then mapGet st.byId user.id else none) = none) :
    (∀ entry, mapGet st.idempotency key = some entry →
       entry.expiresAt ≠ 0 → now < entry.expiresAt →
       mapGet (upsert ttl st now user (some key)).2.idempotency key
         = some { expiresAt := entry.expiresAt, userIds := setAdd entry.userIds user.id })
    ∧ (∀ entry, mapGet st.idempotency key = some entry →
       ¬(entry.expiresAt ≠ 0 ∧ now < entry.expiresAt) →
       mapGet (upsert ttl st now user (some key)).2.idempotency key
         = some { expiresAt := now + ttl, userIds := [user.id] })
    ∧ (mapGet st.idempotency key = none →
       mapGet (upsert ttl st now user (some key)).2.idempotency key
         = some { expiresAt := now + ttl, userIds := [user.id] }) := by
  have h1 := upsert_write ttl now st user key hkey hnr
  refine ⟨?_, ?_, ?_⟩
  · intro entry hentry hz hlt
    rw [h1, persistIdempotency_live _ _ _ _ _ entry (by simpa using hentry) hz hlt]
    exact mapGet_mapSet_self ..
  · intro entry hentry hh
    rw [h1, persistIdempotency_expired _ _ _ _ _ entry (by simpa using hentry) hh]
    exact mapGet_mapSet_self ..
  · intro hnone
    rw [h1, persistIdempotency_fresh _ _ _ _ _ (by simpa using hnone)]
    exact mapGet_mapSet_self ..

/-- Witness for C6 (amended): the non-replay upsert of `userBx` against the
live entry in `s1Fix` adds the member id and keeps `expiresAt = 100`. -/
theorem upsert_registers_idempotency_witness :
    mapGet (upsert 100 s1Fix 50 userBx (some "k")).2.idempotency "k"
      = some { expiresAt := 100, userIds := setAdd ["a"] userBx.id } :=
  (upsert_registers_idempotency 100 50 s1Fix userBx "k" (by decide) (by decide)).1
    { expiresAt := 100, userIds := ["a"] } (by decide) (by decide) (by decide)

/-! Lemmas about fail-fast bulk persistence. -/

/-- A successful sequential prefix composes: running the concatenation
continues from the prefix's final state and accumulated successes. -/
theorem bulkSequential_append {σ : Type} (step : User → σ → Except AppError User × σ)
    (l1 l2 : List User) :
    ∀ (s : σ) (acc acc1 : List User) (s1 : σ),
      bulkSequential step l1 s acc = (Except.ok acc1, s1) →
      bulkSequential step (l1 ++ l2) s acc = bulkSequential step l2 s1 acc1 := by
  induction l1 with
  | nil =>
    intro s acc acc1 s1 h
    simp only [bulkSequential] at h
    injection h with hr hs
    injection hr with ha
    subst ha
    subst hs
    simp [bulkSequential]
  | cons u rest ih =>
    intro s acc acc1 s1 h
    simp only [List.cons_append, bulkSequential] at h ⊢
    rcases hstep : step u s with ⟨r, s3⟩
    cases r with
    | ok stored =>
      rw [hstep] at h
      exact ih s3 (acc ++ [stored]) acc1 s1 h
    | error e =>
      rw [hstep] at h
      simp at h

/-- C3: with `failFast = true`, `bulkUpsert` persists the batch strictly in
input order; when the (retried) upsert of some entity fails after a
successful prefix, the whole call surfaces that entity's own error as the
overall failure (no partial `BulkUpsertResult`), and the store state it
leaves behind is exactly the state after the prefix writes and the failing
step — every write already applied remains applied (no rollback). -/
theorem bulkUpsertFailFast_first_failure {σ : Type}
    (step : User → σ → Except AppError User × σ) (pre : List User) (u : User)
    (post : List User) (s s1 s2 : σ) (succ : List User) (e : AppError)
    (hpre : bulkSequential step pre s [] = (Except.ok succ, s1))
    (hfail : step u s1 = (Except.error e, s2)) :
    bulkUpsertFailFast step (pre ++ u :: post) s = (Except.error e, s2) := by
  have happ := bulkSequential_append step pre (u :: post) s [] succ s1 hpre
  rw [bulkUpsertFailFast, happ]
  simp only [bulkSequential, hfail]

/-- Witness for C3: persisting `[userAx, userBad, userCy]` through the
fixture step aborts at `userBad` with its own error, keeping the write of
`userAx`. -/
theorem bulkUpsertFailFast_first_failure_witness :
    bulkUpsertFailFast stepFixture ([userAx] ++ userBad :: [userCy]) emptyRepo
      = (Except.error errBoom, stateAfterA) :=
  bulkUpsertFailFast_first_failure stepFixture [userAx] userBad [userCy] emptyRepo
    stateAfterA stateAfterA [userAx] errBoom (by decide) (by decide)

/-! Policy evaluation. -/

/-- C4: for an entity whose email domain is not disposable and whose id is
stored, ties on `updatedAt` favor the stored record: an incoming
`updatedAt` less than or equal to the stored one is skipped with the
`stale-update` policy error, a strictly greater one is accepted. -/
theorem evaluatePolicies_staleness_tiebreak (st : RepoState) (user matched : User)
    (hdom : isDisposable (emailDomain user.email) = false)
    (hfound : findById st user.id = some matched) :
    (user.updatedAt ≤ matched.updatedAt →
      evaluatePolicies st user
        = PolicyOutcome.skip user
            (createPolicyError "POLICY_STALE_UPDATE"
              "Incoming record is older than the stored version"))
    ∧ (matched.updatedAt < user.updatedAt →
      evaluatePolicies st user = PolicyOutcome.accept user) := by
  constructor
  · intro hle
    simp only [evaluatePolicies, hdom, Bool.false_eq_true, if_false, hfound, if_pos hle]
  · intro hgt
    simp only [evaluatePolicies, hdom, Bool.false_eq_true, if_false, hfound,
      if_neg (not_le.mpr hgt)]

/-- Witness for C4: against the store holding `userAx` (`updatedAt = 10`),
an equal-timestamp update is skipped as stale and a strictly newer one is
accepted. -/
theorem evaluatePolicies_staleness_tiebreak_witness :
    evaluatePolicies storeWithA userAx
      = PolicyOutcome.skip userAx
          (createPolicyError "POLICY_STALE_UPDATE"
            "Incoming record is older than the stored version")
    ∧ evaluatePolicies storeWithA userAxNewer = PolicyOutcome.accept userAxNewer :=
  ⟨(evaluatePolicies_staleness_tiebreak storeWithA userAx userAx
      (by decide) (by decide)).1 (by decide),
   (evaluatePolicies_staleness_tiebreak storeWithA userAxNewer userAx
      (by decide) (by decide)).2 (by decide)⟩

/-- C5: an entity with a disposable-domain email is skipped with the
`disposable-email` policy error regardless of the store's contents (the
check precedes any store lookup, so the result does not depend on the
store at all). -/
theorem evaluatePolicies_disposable_precedence (st : RepoState) (user : User)
    (hdom : isDisposable (emailDomain user.email) = true) :
    evaluatePolicies st user
      = PolicyOutcome.skip user
          (createPolicyError "POLICY_DISPOSABLE_EMAIL"
            "Disposable email domain is not allowed") := by
  simp only [evaluatePolicies, hdom, if_true]

/-- Witness for C5: `userDisp` (disposable domain, `updatedAt = 5`) is
skipped as `disposable-email`, not `stale-update`, even though the store
holds the same id with the newer `updatedAt = 10`. -/
theorem evaluatePolicies_disposable_precedence_witness :
    (findById storeWithA userDisp.id).map User.updatedAt = some 10
    ∧ userDisp.updatedAt = 5
    ∧ evaluatePolicies storeWithA userDisp
        = PolicyOutcome.skip userDisp
            (createPolicyError "POLICY_DISPOSABLE_EMAIL"
              "Disposable email domain is not allowed") :=
  ⟨by decide, by decide,
   evaluatePolicies_disposable_precedence storeWithA userDisp (by decide)⟩

/-! Report domain distribution: the stable descending sort and the
first-seen key order of the counting fold. -/

/-- Membership in a stable descending insertion. -/
theorem mem_insertDesc (x z : String × Nat) (l : List (String × Nat)) :
    z ∈ insertDesc x l ↔ z = x ∨ z ∈ l := by
  induction l with
  | nil => simp [insertDesc]
  | cons y ys ih =>
    by_cases h : y.2 < x.2
    · simp [insertDesc, h]
    · simp [insertDesc, h, ih]
      tauto

/-- Stable descending insertion preserves descending order by count. -/
theorem pairwise_insertDesc (x : String × Nat) (l : List (String × Nat))
    (hl : l.Pairwise (fun a b => b.2 ≤ a.2)) :
    (insertDesc x l).Pairwise (fun a b => b.2 ≤ a.2) := by
  induction l with
  | nil => simp [insertDesc]
  | cons y ys ih =>
    rcases List.pairwise_cons.mp hl with ⟨hy, hys⟩
    by_cases h : y.2 < x.2
    · rw [insertDesc, if_pos h]
      refine List.Pairwise.cons ?_ (List.Pairwise.cons hy hys)
      intro z hz
      rcases List.mem_cons.mp hz with rfl | hz2
      · exact le_of_lt h
      · exact le_trans (hy z hz2) (le_of_lt h)
    · rw [insertDesc, if_neg h]
      refine List.Pairwise.cons ?_ (ih hys)
      intro z hz
      rcases (mem_insertDesc x z ys).mp hz with rfl | hz2
      · exact le_of_not_lt h
      · exact hy z hz2

/-- Stability of the descending insertion: among entries of one fixed
count, the inserted entry lands after all existing ones, so filtering by
that count appends it at the end. -/
theorem filter_insertDesc (c : Nat) (x : String × Nat) (l : List (String × Nat))
    (hl : l.Pairwise (fun a b => b.2 ≤ a.2)) :
    (insertDesc x l).filter (fun p => p.2 = c)
      = l.filter (fun p => p.2 = c) ++ (if x.2 = c then [x] else []) := by
  induction l with
  | nil => by_cases hx : x.2 = c <;> simp [insertDesc, hx]
  | cons y ys ih =>
    rcases List.pairwise_cons.mp hl with ⟨hy, hys⟩
    by_cases h : y.2 < x.2
    · rw [insertDesc, if_pos h]
      by_cases hx : x.2 = c
      · have hnil : (y :: ys).filter (fun p => p.2 = c) = [] := by
          rw [List.filter_eq_nil_iff]
          intro z hz
          rcases List.mem_cons.mp hz with rfl | hz2
          · simp
            omega
          · have := hy z hz2
            simp
            omega
        simp [List.filter_cons, hx, hnil]
      · simp [List.filter_cons, hx]
    · rw [insertDesc, if_neg h]
      by_cases hyc : y.2 = c
      · simp [List.filter_cons, hyc, ih hys]
      · simp [List.filter_cons, hyc, ih hys]

/-- The sorting fold keeps the accumulator descending and, for every fixed
count, concatenates the filtered input after the filtered accumulator (the
stability invariant). -/
theorem sortByCountDesc_invariant (l : List (String × Nat)) :
    ∀ acc : List (String × Nat), acc.Pairwise (fun a b => b.2 ≤ a.2) →
      (l.foldl (fun a x => insertDesc x a) acc).Pairwise (fun a b => b.2 ≤ a.2)
      ∧ ∀ c, (l.foldl (fun a x => insertDesc x a) acc).filter (fun p => p.2 = c)
          = acc.filter (fun p => p.2 = c) ++ l.filter (fun p => p.2 = c) := by
  induction l with
  | nil =>
    intro acc hacc
    exact ⟨hacc, fun c => by simp⟩
  | cons x xs ih =>
    intro acc hacc
    obtain ⟨hp, hf⟩ := ih (insertDesc x acc) (pairwise_insertDesc x acc hacc)
    refine ⟨hp, ?_⟩
    intro c
    rw [List.foldl_cons, hf c, filter_insertDesc c x acc hacc, List.filter_cons]
    by_cases hx : x.2 = c
    · simp [hx]
    · simp [hx]

/-- The keys of a `mapSet` are the old keys, with the new key appended only
when it was absent. -/
theorem mapSet_keys {α : Type} (m : List (String × α)) (k : String) (v : α) :
    (mapSet m k v).map Prod.fst
      = if k ∈ m.map Prod.fst then m.map Prod.fst else m.map Prod.fst ++ [k] := by
  induction m with
  | nil => simp [mapSet]
  | cons p rest ih =>
    by_cases h : p.1 = k
    · simp [mapSet, h]
    · by_cases h2 : k ∈ rest.map Prod.fst <;>
        simp [mapSet, h, ih, h2, Ne.symm h]

/-- Filtering out a member of `K` commutes away under a subsequent
filter by non-membership in `K`. -/
theorem filter_ne_of_mem (K : List String) (d : String) (hd : d ∈ K) (l : List String) :
    (l.filter (fun x => x ≠ d)).filter (fun x => x ∉ K) = l.filter (fun x => x ∉ K) := by
  rw [List.filter_filter]
  apply List.filter_congr
  intro x hx
  by_cases hxK : x ∈ K
  · simp [hxK]
  · have hxd : x ≠ d := fun h => hxK (h ▸ hd)
    simp [hxK, hxd]

/-- Non-membership in `K ++ [d]` splits into the two separate filters. -/
theorem filter_notmem_append (K : List String) (d : String) (l : List String) :
    l.filter (fun x => x ∉ K ++ [d])
      = (l.filter (fun x => x ≠ d)).filter (fun x => x ∉ K) := by
  rw [List.filter_filter]
  apply List.filter_congr
  intro x hx
  by_cases hxd : x = d
  · subst hxd
    simp [List.mem_append]
  · by_cases hxK : x ∈ K <;> simp [List.mem_append, hxd, hxK]

/-- The counting fold of `domainCounts` lists its keys in first-seen order:
old keys first, then the first occurrences of the remaining domains. -/
theorem domainCounts_go_keys (users : List User) :
    ∀ acc : List (String × Nat),
      (users.foldl (fun acc user =>
          mapSet acc (reportDomain user.email)
            ((mapGet acc (reportDomain user.email)).getD 0 + 1)) acc).map Prod.fst
        = acc.map Prod.fst
          ++ (firstSeenDedup (users.map (fun u => reportDomain u.email))).filter
               (fun d => d ∉ acc.map Prod.fst) := by
  induction users with
  | nil =>
    intro acc
    simp [firstSeenDedup]
  | cons u rest ih =>
    intro acc
    rw [List.foldl_cons, ih, List.map_cons]
    simp only [firstSeenDedup]
    rw [mapSet_keys]
    by_cases hd : reportDomain u.email ∈ acc.map Prod.fst
    · rw [if_pos hd, List.filter_cons]
      have hdec : (decide (reportDomain u.email ∉ acc.map Prod.fst)) = false := by
        simp [hd]
      rw [hdec]
      simp only [Bool.false_eq_true, if_false]
      rw [filter_ne_of_mem (acc.map Prod.fst) (reportDomain u.email) hd]
    · rw [if_neg hd, List.filter_cons]
      have hdec : (decide (reportDomain u.email ∉ acc.map Prod.fst)) = true := by
        simp [hd]
      rw [hdec, if_pos rfl]
      rw [filter_notmem_append (acc.map Prod.fst) (reportDomain u.email)]
      simp

/-- C9: the report's domain distribution is sorted by strictly descending
count with ties in first-appearance order: the sorted counts are pairwise
descending; filtering the sorted list by any fixed count returns exactly
the entries of `domainCounts` in their original order (stability), and
`domainCounts` itself lists the domains in the order of their first
appearance among the persisted users; `topDomains` is the 5-entry prefix;
in particular, for emails `{a@x.com, b@x.com, c@y.com}` it lists
`x.com: 2` then `y.com: 1`. -/
theorem topDomains_ordering (users : List User) :
    (sortByCountDesc (domainCounts users)).Pairwise (fun a b => b.2 ≤ a.2)
    ∧ (∀ c, (sortByCountDesc (domainCounts users)).filter (fun p => p.2 = c)
        = (domainCounts users).filter (fun p => p.2 = c))
    ∧ (domainCounts users).map Prod.fst
        = firstSeenDedup (users.map (fun u => reportDomain u.email))
    ∧ topDomains users = (sortByCountDesc (domainCounts users)).take 5
    ∧ topDomains usersXY = [("x.com", 2), ("y.com", 1)] := by
  refine ⟨?_, ?_, ?_, rfl, by decide⟩
  · rw [sortByCountDesc]
    exact (sortByCountDesc_invariant (domainCounts users) [] List.Pairwise.nil).1
  · intro c
    rw [sortByCountDesc,
      (sortByCountDesc_invariant (domainCounts users) [] List.Pairwise.nil).2 c]
    simp
  · have h := domainCounts_go_keys users []
    simpa using h

/-- C8 counterexample: a run that completed with zero aggregated errors but
three policy skips exits with code 0, not 2 — `classifyExit` only inspects
`output.errors.length`, so skips alone never produce exit code 2. -/
theorem exit_code_skips_cex :
    summarySkips.errorsCount = 0 ∧ 0 < summarySkips.skippedCount ∧
    executePipelineExitCode (Except.ok summarySkips) = 0 ∧
    executePipelineExitCode (Except.ok summarySkips) ≠ 2 := by decide

/-- C8 (amended): the exit code is 0 when the completed run aggregated zero
errors (policy skips do not affect the exit code), 2 when the completed run
aggregated at least one error, and 1 when the run itself failed fatally. -/
theorem exit_code_classification (summary : PipelineSuccessSummary) (e : AppError) :
    (summary.errorsCount = 0 → executePipelineExitCode (Except.ok summary) = 0)
    ∧ (0 < summary.errorsCount → executePipelineExitCode (Except.ok summary) = 2)
    ∧ executePipelineExitCode (Except.error e) = 1 := by
  obtain ⟨ec, sc⟩ := summary
  refine ⟨?_, ?_, rfl⟩
  · intro h
    simp only at h
    subst h
    rfl
  · intro h
    have hif : (if 0 < ec then 1 else 0) = 1 := if_pos h
    simp [executePipelineExitCode, classifyExit, exitKinds, exitCodeOfKind, hif]

/-- Witness for C8: zero errors (with skips) exits 0, two errors exit 2, a
fatal failure exits 1. -/
theorem exit_code_classification_witness :
    executePipelineExitCode (Except.ok summarySkips) = 0
    ∧ executePipelineExitCode (Except.ok { errorsCount := 2, skippedCount := 0 }) = 2
    ∧ executePipelineExitCode (Except.error errBoom) = 1 :=
  ⟨(exit_code_classification summarySkips errBoom).1 rfl,
   (exit_code_classification { errorsCount := 2, skippedCount := 0 } errBoom).2.1 (by decide),
   (exit_code_classification summarySkips errBoom).2.2⟩

end TsPipeline

